import Mathlib

/-!
Shallow embedding of `src/main.py` of `astrbot_plugin_plugins_summary`.

The plugin scans a plugins root directory, reads each plugin's
`metadata.yaml`, statically parses each plugin's `main.py` for
`@filter.command("...")`-decorated async functions, and renders listing /
detail / catalogue views.

Modelling conventions:
* Python strings are Lean `String`s; the Python string operations used by
  the source (`str.strip`, `str.split`, `str.startswith`, `in`, `int(...)`,
  lexicographic `<`) are re-implemented structurally over `List Char` so
  that every definition evaluates by `rfl`/`decide` on concrete input.
  They model CPython behaviour on the ASCII/BMP inputs that occur here
  (`str.strip` of unusual Unicode whitespace and `int()` of non-ASCII
  digits are out of scope).
* Fallible Python code is modelled with `Except String`, the error string
  naming the exception class that the corresponding Python expression
  raises (e.g. `"AttributeError"` for `None.get(...)`).
* The relevant fragment of the Python `ast` module is modelled by
  `PyExpr`/`PyStmt`.  `PyStmt.asyncFunctionDef` carries the function's
  docstring directly, standing for `ast.get_docstring(node, clean=True)`
  (i.e. the docstring after `inspect.cleandoc` normalisation).
  `ast.walk` enumerates nodes breadth-first; `walkStmts` enumerates the
  same set of statement nodes depth-first (pre-order).  Only statements
  are walked because no Python statement can occur inside an expression,
  so the set of `AsyncFunctionDef` nodes visited is identical.
-/

/-- A Python constant, as carried by an `ast.Constant` node.  `ast.parse`
produces such a node for any literal argument of a decorator call, whether
or not the literal is a string. -/
inductive PyConst where
  | str (s : String)
  | int (n : Int)
  | bool (b : Bool)
  | none
deriving DecidableEq

/-- Python truthiness (`bool(v)`) of a constant, used by
`if not command_name: continue` in `_parse_commands`. -/
def PyConst.truthy : PyConst → Bool
  | .str s => !(s == "")
  | .int n => !(n == 0)
  | .bool b => b
  | .none => false

/-- Python `str(v)` of a constant, as interpolated by f-strings. -/
def PyConst.pyStr : PyConst → String
  | .str s => s
  | .int n => toString n
  | .bool b => if b then "True" else "False"
  | .none => "None"

/-- The fragment of Python expressions that `_parse_commands` inspects:
`ast.Name`, `ast.Attribute`, `ast.Constant`, `ast.Call`; every other
expression shape is `other`. -/
inductive PyExpr where
  | name (id : String)
  | attr (value : PyExpr) (attrName : String)
  | const (v : PyConst)
  | call (func : PyExpr) (args : List PyExpr)
  | other

/-- Python statements, restricted to what matters for the walk:
`ast.AsyncFunctionDef` and `ast.FunctionDef` (with decorator list,
cleaned docstring and body), `ast.ClassDef`, and any other statement
together with the statement nodes nested in its blocks. -/
inductive PyStmt where
  | asyncFunctionDef (fname : String) (decorator_list : List PyExpr)
      (docstring : Option String) (body : List PyStmt)
  | functionDef (fname : String) (decorator_list : List PyExpr)
      (docstring : Option String) (body : List PyStmt)
  | classDef (cname : String) (body : List PyStmt)
  | other (body : List PyStmt)

/-- The statement children of a statement (the statement nodes reachable in
one step by `ast.iter_child_nodes`). -/
def stmtBody : PyStmt → List PyStmt
  | .asyncFunctionDef _ _ _ b => b
  | .functionDef _ _ _ b => b
  | .classDef _ b => b
  | .other b => b

mutual

/-- All statement nodes of the subtree rooted at `s`, in pre-order; see the
header note on `ast.walk`. -/
def walkStmt : PyStmt → List PyStmt
  | .asyncFunctionDef n d doc b => .asyncFunctionDef n d doc b :: walkStmts b
  | .functionDef n d doc b => .functionDef n d doc b :: walkStmts b
  | .classDef n b => .classDef n b :: walkStmts b
  | .other b => .other b :: walkStmts b

/-- All statement nodes of a forest of statements (e.g. a module body). -/
def walkStmts : List PyStmt → List PyStmt
  | [] => []
  | s :: ss => walkStmt s ++ walkStmts ss

end

/-- Python `str.strip` whitespace test (ASCII fragment). -/
def isPySpace (c : Char) : Bool :=
  c == ' ' || c == '\t' || c == '\n' || c == '\x0d' || c == '\x0b' || c == '\x0c'

/-- Python `str.strip()` on the character list. -/
def stripChars (l : List Char) : List Char :=
  ((l.dropWhile isPySpace).reverse.dropWhile isPySpace).reverse

/-- Python `str.strip()`. -/
def pyStrip (s : String) : String := String.mk (stripChars s.data)

/-- Python `str.split('\n')` on the character list: `[[]]` on the empty
list, and a new (possibly empty) chunk after every newline. -/
def splitNl : List Char → List (List Char)
  | [] => [[]]
  | c :: rest =>
      if c == '\n' then [] :: splitNl rest
      else
        match splitNl rest with
        | [] => [[c]]
        | l :: ls => (c :: l) :: ls

/-- Python `str.split('\n')`. -/
def pySplitLines (s : String) : List String := (splitNl s.data).map String.mk

/-- Prefix test on character lists (`l₂` starts with `l₁`). -/
def charsStart : List Char → List Char → Bool
  | [], _ => true
  | _ :: _, [] => false
  | a :: as, b :: bs => a == b && charsStart as bs

/-- Python `s.startswith(p)`. -/
def pyStartsWith (s p : String) : Bool := charsStart p.data s.data

/-- Python substring test on character lists (`needle in hay`). -/
def charsSub (needle : List Char) : List Char → Bool
  | [] => charsStart needle []
  | c :: t => charsStart needle (c :: t) || charsSub needle t

/-- Python `needle in hay` for strings. -/
def strIn (needle hay : String) : Bool := charsSub needle.data hay.data

/-- One extracted chat command: `{"name": ..., "description": ..., "usage": ...}`
as appended by `_parse_commands` (the name is whatever constant the
decorator carried, not necessarily a string). -/
structure CommandInfo where
  name : PyConst
  description : String
  usage : String
deriving DecidableEq

/-- Lines 90-94 of `main.py`: the decorator is an `ast.Call` whose function
is an `ast.Attribute` whose value is an `ast.Name` with
`id == 'filter'` and `attr == 'command'`. -/
def isFilterCommand : PyExpr → Bool
  | .call f _ =>
      match f with
      | .attr v attrName =>
          match v with
          | .name id => id == "filter" && attrName == "command"
          | _ => false
      | _ => false
  | _ => false

/-- Lines 96-103 of `main.py`: `command_name` starts as `""`; if the call
has a positional argument and it is a constant, its value is taken (the
deprecated `ast.Str` branch coincides with the `ast.Constant` branch in
this model). -/
def extractCommandName (args : List PyExpr) : PyConst :=
  match args with
  | [] => .str ""
  | arg :: _ =>
      match arg with
      | .const v => v
      | _ => .str ""

/-- The `command_name` a decorator yields (`.str ""` when the decorator is
not even a call; only used on decorators that pass `isFilterCommand`). -/
def decoratorArgName : PyExpr → PyConst
  | .call _ args => extractCommandName args
  | _ => .str ""

/-- Lines 118-121 of `main.py`: scan the docstring lines after the first
for the first one whose stripped form starts with the label `用法：`; that
stripped line is the usage hint. -/
def findUsage : List String → String
  | [] => ""
  | l :: ls => if pyStartsWith (pyStrip l) "用法：" then pyStrip l else findUsage ls

/-- Lines 111-121 of `main.py`: description and usage from the (cleaned)
docstring: both empty for an empty docstring; otherwise the stripped
docstring is split on newlines, the first line (stripped) is the
description and `findUsage` scans the remaining lines. -/
def parseDocstring (docstring : String) : String × String :=
  if docstring == "" then ("", "")
  else
    match pySplitLines (pyStrip docstring) with
    | [] => ("", "")
    | first :: rest => (pyStrip first, findUsage rest)

/-- Lines 88-127 of `main.py`: the inner decorator loop of
`_parse_commands` for one async function with docstring `doc` (already
defaulted to `""`): each matching decorator with a truthy constant name
appends one record; all other decorators are skipped. -/
def parseDecorators (doc : String) : List PyExpr → List CommandInfo
  | [] => []
  | dec :: rest =>
      if isFilterCommand dec then
        let command_name := decoratorArgName dec
        if command_name.truthy then
          { name := command_name
            description := (parseDocstring doc).1
            usage := (parseDocstring doc).2 } :: parseDecorators doc rest
        else parseDecorators doc rest
      else parseDecorators doc rest

/-- The records one walked node contributes: only `ast.AsyncFunctionDef`
nodes are inspected (`isinstance(node, ast.AsyncFunctionDef)`); the
docstring defaults to `""` (`ast.get_docstring(node, clean=True) or ""`). -/
def nodeCommands : PyStmt → List CommandInfo
  | .asyncFunctionDef _ decorator_list docstring _ =>
      parseDecorators (docstring.getD "") decorator_list
  | _ => []

/-- Lines 75-133 of `main.py`, `_parse_commands`, on an already-parsed
module body: walk every statement node and collect the command records in
walk order.  (The surrounding `try` only matters for unparseable sources,
which are represented by an empty body upstream.) -/
def parse_commands (tree : List PyStmt) : List CommandInfo :=
  (walkStmts tree).flatMap nodeCommands

example : parse_commands
    [.asyncFunctionDef "search"
      [.call (.attr (.name "filter") "command") [.const (.str "search")]]
      (some "Find items\nUsage: /search <term>") []]
    = [{ name := .str "search", description := "Find items", usage := "" }] := rfl

example : parse_commands
    [.asyncFunctionDef "search"
      [.call (.attr (.name "filter") "command") [.const (.str "search")]]
      (some "Find items\n用法：/search <term>") []]
    = [{ name := .str "search", description := "Find items",
         usage := "用法：/search <term>" }] := rfl

/-- A parsed `metadata.yaml` mapping, restricted to string keys and values
(the only shapes the views read).  Keys are unique in a YAML mapping. -/
abbrev Metadata := List (String × String)

/-- Python `d.get(key, default)` on a metadata mapping. -/
def metaGet (m : Metadata) (key default : String) : String :=
  match m.find? (fun kv => kv.1 == key) with
  | some kv => kv.2
  | Option.none => default

/-- One entry of `self.plugins_info` as built by `_load_plugins_info`
(lines 35-39 of `main.py`): directory name, the loaded metadata (`none`
when `metadata.yaml` is absent, unreadable, malformed, or loads YAML
`null` — in all those cases the Python field keeps its initial `None`),
and the commands parsed from `main.py` (empty when that file is absent,
unreadable or unparseable). -/
structure PluginInfo where
  name : String
  metadata : Option Metadata
  commands : List CommandInfo
deriving DecidableEq

/-- One directory entry of the plugins root, bundled with what loading its
`metadata.yaml` and parsing its `main.py` yield. -/
structure DirEntry where
  dname : String
  isDir : Bool
  metadata : Option Metadata
  commands : List CommandInfo
deriving DecidableEq

/-- Lines 22-73 of `main.py`, `_load_plugins_info`: iterate the plugins
root; skip non-directories and the plugin's own directory; build one
`PluginInfo` per remaining entry.  (The outer `except` clauses only stop
the iteration on an unreadable root.) -/
def load_plugins_info : List DirEntry → List PluginInfo
  | [] => []
  | e :: rest =>
      if !e.isDir || e.dname == "astrbot_plugin_plugins_summary" then
        load_plugins_info rest
      else
        { name := e.dname, metadata := e.metadata, commands := e.commands }
          :: load_plugins_info rest

/-- Python `int(query)` on ASCII input: strip whitespace, optional sign,
then a nonempty digit run in which single underscores may separate
digits.  `Option.none` models `ValueError`. -/
def pyDigits : List Char → Nat → Option Nat
  | [], acc => some acc
  | c :: rest, acc =>
      if c == '_' then
        match rest with
        | [] => Option.none
        | d :: rest2 =>
            if d.isDigit then pyDigits rest2 (acc * 10 + (d.toNat - 48))
            else Option.none
      else if c.isDigit then pyDigits rest (acc * 10 + (c.toNat - 48))
      else Option.none

/-- Digit-run parser requiring a leading digit. -/
def pyDigitsStart : List Char → Option Nat
  | [] => Option.none
  | c :: rest =>
      if c.isDigit then pyDigits rest (c.toNat - 48) else Option.none

/-- Python `int(query)` (see `pyDigits`). -/
def pyInt? (s : String) : Option Int :=
  match (stripChars s.data) with
  | '+' :: rest => (pyDigitsStart rest).map (fun n => (n : Int))
  | '-' :: rest => (pyDigitsStart rest).map (fun n => -(n : Int))
  | cs => (pyDigitsStart cs).map (fun n => (n : Int))

/-- Lines 188-193 of `main.py`: the name branch of the detail lookup.  For
each plugin in scan order, evaluate
`query in metadata.get("name", "") or query in plugin["name"]`; the first
hit wins.  When `plugin["metadata"]` is `None`, `metadata.get` raises
`AttributeError` (`plugin.get("metadata", {})` returns the stored `None`,
not the default). -/
def findByName : List PluginInfo → String → Except String (Option PluginInfo)
  | [], _ => .ok Option.none
  | p :: rest, query =>
      match p.metadata with
      | Option.none => .error "AttributeError"
      | some m =>
          if strIn query (metaGet m "name" "") || strIn query p.name then
            .ok (some p)
          else findByName rest query

/-- Lines 180-193 of `main.py`: resolve the detail-lookup target.  If
`int(query)` succeeds, use the 1-based index (out of range gives no
target); on `ValueError` fall back to the substring search. -/
def find_target_plugin (plugins : List PluginInfo) (query : String) :
    Except String (Option PluginInfo) :=
  match pyInt? query with
  | some n =>
      let index : Int := n - 1
      if h : 0 ≤ index ∧ index < (plugins.length : Int) then
        .ok (some (plugins.get ⟨index.toNat, by omega⟩))
      else .ok Option.none
  | Option.none => findByName plugins query

/-- Lines 214-218 of `main.py`: the per-command lines of the detail view. -/
def detailCmdLines : List CommandInfo → List String
  | [] => []
  | c :: rest =>
      ("\n   📌 命令：" ++ c.name.pyStr) ::
      ("   📝 描述：" ++ c.description) ::
      ((if c.usage == "" then [] else ["   💡 用法：" ++ c.usage]) ++
        detailCmdLines rest)

/-- Lines 179-222 of `main.py`, `show_plugin_details`, from the stripped
query to the text it would render (the remaining lines only wrap the text
in an image).  A found target with `metadata = None` raises
`AttributeError` at `metadata.get('name', '无')`. -/
def show_plugin_details_text (plugins : List PluginInfo) (query : String) :
    Except String String := do
  let target ← find_target_plugin plugins query
  match target with
  | Option.none =>
      .ok ("未找到名称包含 \x27" ++ query ++ "\x27 的插件")
  | some p =>
      match p.metadata with
      | Option.none => .error "AttributeError"
      | some m =>
          let result : List String :=
            ["\n🔍 插件详情：",
             "📦 插件ID：" ++ p.name,
             "📛 名称：" ++ metaGet m "name" "无",
             "📝 描述：" ++ metaGet m "desc" "无",
             "📖 帮助：" ++ metaGet m "help" "无",
             "🔢 版本：" ++ metaGet m "version" "无",
             "👤 作者：" ++ metaGet m "author" "无",
             "🔗 仓库：" ++ metaGet m "repo" "无"]
          let result := result ++
            (if p.commands.isEmpty then ["\n⚙️  命令列表：无"]
             else ("\n⚙️  命令列表（" ++ toString p.commands.length ++ "个）：")
               :: detailCmdLines p.commands)
          .ok (String.intercalate "\n" result)

/-- Lines 144-152 of `main.py`: the body of the listing loop, numbering
plugins from `i`.  Each iteration reads
`metadata.get("name", plugin["name"])` and `metadata.get("desc", "无描述")`,
which raise `AttributeError` when the stored metadata is `None`. -/
def listingLines : Nat → List PluginInfo → Except String (List String)
  | _, [] => .ok []
  | i, p :: rest =>
      match p.metadata with
      | Option.none => .error "AttributeError"
      | some m =>
          let plugin_name := metaGet m "name" p.name
          let plugin_desc := metaGet m "desc" "无描述"
          let entry : List String :=
            ("\n" ++ (toString i ++ (". " ++ plugin_name))) ::
            ("   📝 描述：" ++ plugin_desc) ::
            (if p.commands.isEmpty then []
             else ["   ⚙️  命令数量：" ++ toString p.commands.length])
          match listingLines (i + 1) rest with
          | .error e => .error e
          | .ok tail => .ok (entry ++ tail)

/-- Lines 140-153 of `main.py`, `show_plugins_list`, from the loaded
plugin records to the text it would render. -/
def show_plugins_list_text (plugins : List PluginInfo) : Except String String :=
  if plugins.isEmpty then .ok "未找到任何插件"
  else
    match listingLines 1 plugins with
    | .error e => .error e
    | .ok lines =>
        .ok (String.intercalate "\n" ("📋 已安装插件列表：" :: lines))

/-- One entry of `all_commands` in `show_all_commands` (lines 250-255 of
`main.py`): owning plugin's display name plus the command fields. -/
structure CmdEntry where
  plugin : String
  command : PyConst
  description : String
  usage : String
deriving DecidableEq

/-- The `all_commands` entry built from one command of a plugin displayed
as `plugin_name`. -/
def entryOf (plugin_name : String) (c : CommandInfo) : CmdEntry :=
  { plugin := plugin_name, command := c.name,
    description := c.description, usage := c.usage }

/-- Lines 244-255 of `main.py`: flatten all plugins' commands into
`all_commands`, reading each plugin's display name
(`metadata.get("name", plugin["name"])`, which raises `AttributeError`
when the stored metadata is `None`). -/
def allCommandsE : List PluginInfo → Except String (List CmdEntry)
  | [] => .ok []
  | p :: rest =>
      match p.metadata with
      | Option.none => .error "AttributeError"
      | some m =>
          let plugin_name := metaGet m "name" p.name
          match allCommandsE rest with
          | .error e => .error e
          | .ok tail => .ok (p.commands.map (entryOf plugin_name) ++ tail)

/-- Python `a < b` on strings: lexicographic comparison of code points. -/
def charsLt : List Char → List Char → Bool
  | [], [] => false
  | [], _ :: _ => true
  | _ :: _, [] => false
  | a :: as, b :: bs => a < b || (a == b && charsLt as bs)

/-- Python `a <= b` on strings. -/
def charsLe : List Char → List Char → Bool
  | [], _ => true
  | _ :: _, [] => false
  | a :: as, b :: bs => a < b || (a == b && charsLe as bs)

/-- String order used by `all_commands.sort(key=lambda x: x["plugin"])`. -/
def strLe (a b : String) : Bool := charsLe a.data b.data

/-- Stable insertion of an entry in front of the first existing entry with
a key not below it. -/
def orderedInsertCmd (x : CmdEntry) : List CmdEntry → List CmdEntry
  | [] => [x]
  | y :: ys =>
      if strLe x.plugin y.plugin then x :: y :: ys
      else y :: orderedInsertCmd x ys

/-- Line 261 of `main.py`: `all_commands.sort(key=lambda x: x["plugin"])`.
Python's `list.sort` is stable; any stable sort by the same key computes
the same list, here stable insertion sort. -/
def sortCommands : List CmdEntry → List CmdEntry
  | [] => []
  | x :: xs => orderedInsertCmd x (sortCommands xs)

/-- Lines 264-275 of `main.py`: render the sorted entries, emitting a
group header whenever the owning plugin's display name differs from
`current_plugin` (initially `""`). -/
def catalogueLines : String → List CmdEntry → List String
  | _, [] => []
  | current_plugin, c :: rest =>
      (if !(c.plugin == current_plugin) then ["\n🔹 " ++ c.plugin] else []) ++
      (("   📌 /" ++ c.command.pyStr) ::
        ((if c.description == "" then [] else ["      " ++ c.description]) ++
         (if c.usage == "" then [] else ["      💡 " ++ c.usage]))) ++
      catalogueLines c.plugin rest

/-- Lines 239-277 of `main.py`, `show_all_commands`, from the loaded
plugin records to the text it would render. -/
def show_all_commands_text (plugins : List PluginInfo) : Except String String :=
  match allCommandsE plugins with
  | .error e => .error e
  | .ok all_commands =>
      if all_commands.isEmpty then .ok "未找到任何命令"
      else
        let sorted := sortCommands all_commands
        .ok (String.intercalate "\n"
          (("📋 所有插件命令汇总（共 " ++ toString all_commands.length ++ " 个）：")
            :: catalogueLines "" sorted))

/-- Outcome of a handler's delivery/cleanup epilogue (lines 156-168,
224-237, 279-292 and 300-313 of `main.py`, identical in all four
handlers). -/
structure HandlerOutcome where
  tempFileRemains : Bool
  raised : Bool
deriving DecidableEq

/-- The epilogue shared by the four handlers: inside `try`, yield the
image (or plain text when no image was produced; the delivery may raise);
in `finally`, if an image file was created and still exists, `os.unlink`
it, catching and logging a failing unlink.  A delivery exception
propagates after the `finally` block ran.  `imgCreated`, `deliveryFails`
and `unlinkFails` are oracles for the renderer, the host delivery step and
the filesystem. -/
def deliver_and_cleanup (imgCreated deliveryFails unlinkFails : Bool) :
    HandlerOutcome :=
  let fileRemains := if imgCreated then (if unlinkFails then true else false)
    else false
  { tempFileRemains := fileRemains, raised := deliveryFails }

example : pyInt? "  12 " = some 12 := rfl
example : pyInt? "-3" = some (-3) := rfl
example : pyInt? "1_0" = some 10 := rfl
example : pyInt? "abc" = Option.none := rfl
example : pyInt? "12a" = Option.none := rfl
example : pyInt? "" = Option.none := rfl
example : pyInt? "_1" = Option.none := rfl
example : strIn "" "anything" = true := rfl
example : strIn "b" "ab" = true := rfl
example : strIn "ba" "ab" = false := rfl

mutual

/-- Number of statement nodes in the subtree rooted at a statement. -/
def stmtSize : PyStmt → Nat
  | .asyncFunctionDef _ _ _ b => 1 + stmtsSize b
  | .functionDef _ _ _ b => 1 + stmtsSize b
  | .classDef _ b => 1 + stmtsSize b
  | .other b => 1 + stmtsSize b

/-- Number of statement nodes in a forest of statements. -/
def stmtsSize : List PyStmt → Nat
  | [] => 0
  | s :: ss => stmtSize s + stmtsSize ss

end

/-- `OccIn s t`: statement `s` occurs in the subtree rooted at `t` (as `t`
itself or nested at any depth inside `t`'s blocks). -/
inductive OccIn : PyStmt → PyStmt → Prop where
  | here (t : PyStmt) : OccIn t t
  | nested (s u t : PyStmt) : u ∈ stmtBody t → OccIn s u → OccIn s t

/-- `Occurs s tree`: statement `s` occurs anywhere in the forest `tree`. -/
def Occurs (s : PyStmt) (tree : List PyStmt) : Prop :=
  ∃ t, t ∈ tree ∧ OccIn s t

lemma walkStmt_eq (t : PyStmt) : walkStmt t = t :: walkStmts (stmtBody t) := by
  cases t <;> rfl

lemma stmtSize_eq (t : PyStmt) : stmtSize t = 1 + stmtsSize (stmtBody t) := by
  cases t <;> rfl

lemma occIn_iff (s t : PyStmt) :
    OccIn s t ↔ s = t ∨ ∃ u ∈ stmtBody t, OccIn s u := by
  constructor
  · intro h
    cases h with
    | here => exact Or.inl rfl
    | nested u t2 hu hocc => exact Or.inr ⟨u, hu, hocc⟩
  · intro h
    rcases h with rfl | ⟨u, hu, hocc⟩
    · exact OccIn.here s
    · exact OccIn.nested s u t hu hocc

lemma mem_walkStmts_aux :
    ∀ (n : Nat) (l : List PyStmt), stmtsSize l ≤ n →
      ∀ (s : PyStmt), s ∈ walkStmts l ↔ Occurs s l := by
  intro n
  induction n with
  | zero =>
      intro l hl s
      cases l with
      | nil => simp [walkStmts, Occurs]
      | cons t ss =>
          exfalso
          have ht := stmtSize_eq t
          have : stmtsSize (t :: ss) = stmtSize t + stmtsSize ss := rfl
          omega
  | succ n ih =>
      intro l hl s
      cases l with
      | nil => simp [walkStmts, Occurs]
      | cons t ss =>
          have hsz : stmtsSize (t :: ss) = stmtSize t + stmtsSize ss := rfl
          have ht := stmtSize_eq t
          have h1 : stmtsSize (stmtBody t) ≤ n := by omega
          have h2 : stmtsSize ss ≤ n := by omega
          have : walkStmts (t :: ss) = walkStmt t ++ walkStmts ss := rfl
          rw [this, walkStmt_eq t]
          simp only [List.cons_append, List.mem_cons, List.mem_append]
          rw [ih (stmtBody t) h1 s, ih ss h2 s]
          unfold Occurs
          constructor
          · intro h
            rcases h with rfl | ⟨u, hu, hocc⟩ | ⟨u, hu, hocc⟩
            · exact ⟨s, List.mem_cons_self .., OccIn.here s⟩
            · exact ⟨t, List.mem_cons_self .., OccIn.nested s u t hu hocc⟩
            · exact ⟨u, List.mem_cons_of_mem t hu, hocc⟩
          · rintro ⟨u, hu, hocc⟩
            rcases List.mem_cons.mp hu with rfl | hu2
            · rcases (occIn_iff s u).mp hocc with rfl | ⟨v, hv, hocc2⟩
              · exact Or.inl rfl
              · exact Or.inr (Or.inl ⟨v, hv, hocc2⟩)
            · exact Or.inr (Or.inr ⟨u, hu2, hocc⟩)

lemma mem_walkStmts_iff (l : List PyStmt) (s : PyStmt) :
    s ∈ walkStmts l ↔ Occurs s l :=
  mem_walkStmts_aux (stmtsSize l) l (Nat.le_refl _) s

lemma mem_parseDecorators_truthy (doc : String) (ds : List PyExpr) :
    ∀ r ∈ parseDecorators doc ds, r.name.truthy = true := by
  induction ds with
  | nil => intro r hr; simp [parseDecorators] at hr
  | cons dec rest ih =>
      intro r hr
      simp only [parseDecorators] at hr
      by_cases h1 : isFilterCommand dec = true
      · rw [if_pos h1] at hr
        by_cases h2 : (decoratorArgName dec).truthy = true
        · rw [if_pos h2] at hr
          rcases List.mem_cons.mp hr with h | h
          · subst h; exact h2
          · exact ih r h
        · rw [if_neg h2] at hr; exact ih r hr
      · rw [if_neg h1] at hr; exact ih r hr

lemma parseDecorators_spec (doc : String) (ds : List PyExpr) :
    (parseDecorators doc ds).length =
      ds.countP (fun dec => isFilterCommand dec && (decoratorArgName dec).truthy) ∧
    ∀ r ∈ parseDecorators doc ds,
      r.description = (parseDocstring doc).1 ∧ r.usage = (parseDocstring doc).2 := by
  induction ds with
  | nil => exact ⟨rfl, by intro r hr; simp [parseDecorators] at hr⟩
  | cons dec rest ih =>
      obtain ⟨ihlen, ihmem⟩ := ih
      constructor
      · simp only [parseDecorators, List.countP_cons]
        by_cases h1 : isFilterCommand dec = true
        · rw [if_pos h1]
          by_cases h2 : (decoratorArgName dec).truthy = true
          · rw [if_pos h2]
            simp [h1, h2, ihlen]
          · rw [if_neg h2]
            simp only [h1, Bool.true_and]
            rw [ihlen]
            simp [h2]
        · rw [if_neg h1]
          simp only [h1]
          rw [ihlen]
          simp [h1]
      · intro r hr
        simp only [parseDecorators] at hr
        by_cases h1 : isFilterCommand dec = true
        · rw [if_pos h1] at hr
          by_cases h2 : (decoratorArgName dec).truthy = true
          · rw [if_pos h2] at hr
            rcases List.mem_cons.mp hr with h | h
            · subst h; exact ⟨rfl, rfl⟩
            · exact ihmem r h
          · rw [if_neg h2] at hr; exact ihmem r hr
        · rw [if_neg h1] at hr; exact ihmem r hr

lemma mem_parse_commands_iff (tree : List PyStmt) (r : CommandInfo) :
    r ∈ parse_commands tree ↔
      ∃ nm decs doc body,
        PyStmt.asyncFunctionDef nm decs doc body ∈ walkStmts tree ∧
        r ∈ parseDecorators (doc.getD "") decs := by
  simp only [parse_commands, List.mem_flatMap]
  constructor
  · rintro ⟨s, hs, hr⟩
    cases s with
    | asyncFunctionDef nm decs doc body => exact ⟨nm, decs, doc, body, hs, hr⟩
    | functionDef nm decs doc body => simp [nodeCommands] at hr
    | classDef nm body => simp [nodeCommands] at hr
    | other body => simp [nodeCommands] at hr
  · rintro ⟨nm, decs, doc, body, hmem, hr⟩
    exact ⟨PyStmt.asyncFunctionDef nm decs doc body, hmem, hr⟩

lemma charsStart_refl : ∀ l : List Char, charsStart l l = true := by
  intro l
  induction l with
  | nil => rfl
  | cons a as ih => simp [charsStart, ih]

lemma strIn_self (s : String) : strIn s s = true := by
  unfold strIn
  cases hd : s.data with
  | nil => rfl
  | cons c cs => simp [charsSub, charsStart_refl]

lemma charsLe_refl : ∀ l : List Char, charsLe l l = true := by
  intro l
  induction l with
  | nil => rfl
  | cons a as ih => simp [charsLe, ih]

lemma charsLe_total : ∀ a b : List Char, charsLe a b = true ∨ charsLe b a = true := by
  intro a
  induction a with
  | nil => intro b; left; rfl
  | cons x xs ih =>
      intro b
      cases b with
      | nil => right; rfl
      | cons y ys =>
          rcases lt_trichotomy x y with h | h | h
          · left; simp [charsLe, h]
          · subst h
            rcases ih ys with h2 | h2
            · left; simp [charsLe, h2]
            · right; simp [charsLe, h2]
          · right; simp [charsLe, h]

lemma charsLe_trans : ∀ a b c : List Char,
    charsLe a b = true → charsLe b c = true → charsLe a c = true := by
  intro a
  induction a with
  | nil => intro b c _ _; rfl
  | cons x xs ih =>
      intro b c h1 h2
      cases b with
      | nil => simp [charsLe] at h1
      | cons y ys =>
          cases c with
          | nil => simp [charsLe] at h2
          | cons z zs =>
              simp only [charsLe, Bool.or_eq_true, Bool.and_eq_true,
                decide_eq_true_eq, beq_iff_eq] at h1 h2 ⊢
              rcases h1 with h1 | ⟨rfl, h1⟩
              · rcases h2 with h2 | ⟨rfl, h2⟩
                · exact Or.inl (lt_trans h1 h2)
                · exact Or.inl h1
              · rcases h2 with h2 | ⟨rfl, h2⟩
                · exact Or.inl h2
                · exact Or.inr ⟨rfl, ih ys zs h1 h2⟩

lemma strLe_refl (s : String) : strLe s s = true := charsLe_refl _

lemma strLe_total (a b : String) : strLe a b = true ∨ strLe b a = true :=
  charsLe_total _ _

lemma strLe_trans {a b c : String} (h1 : strLe a b = true) (h2 : strLe b c = true) :
    strLe a c = true :=
  charsLe_trans _ _ _ h1 h2

lemma perm_orderedInsertCmd (x : CmdEntry) (l : List CmdEntry) :
    List.Perm (orderedInsertCmd x l) (x :: l) := by
  induction l with
  | nil => exact List.Perm.refl _
  | cons y ys ih =>
      simp only [orderedInsertCmd]
      by_cases h : strLe x.plugin y.plugin = true
      · rw [if_pos h]
      · rw [if_neg h]
        exact (List.Perm.cons y ih).trans (List.Perm.swap x y ys)

lemma perm_sortCommands (l : List CmdEntry) : List.Perm (sortCommands l) l := by
  induction l with
  | nil => exact List.Perm.refl _
  | cons x xs ih =>
      exact (perm_orderedInsertCmd x (sortCommands xs)).trans (List.Perm.cons x ih)

lemma pairwise_orderedInsertCmd (x : CmdEntry) (l : List CmdEntry)
    (hl : List.Pairwise (fun a b => strLe a.plugin b.plugin = true) l) :
    List.Pairwise (fun a b => strLe a.plugin b.plugin = true) (orderedInsertCmd x l) := by
  induction l with
  | nil => simp [orderedInsertCmd]
  | cons y ys ih =>
      rw [List.pairwise_cons] at hl
      obtain ⟨hy, hys⟩ := hl
      simp only [orderedInsertCmd]
      by_cases h : strLe x.plugin y.plugin = true
      · rw [if_pos h]
        rw [List.pairwise_cons]
        refine ⟨?_, List.pairwise_cons.mpr ⟨hy, hys⟩⟩
        intro z hz
        rcases List.mem_cons.mp hz with rfl | hz2
        · exact h
        · exact strLe_trans h (hy z hz2)
      · rw [if_neg h]
        rw [List.pairwise_cons]
        refine ⟨?_, ih hys⟩
        intro z hz
        have hz2 := (perm_orderedInsertCmd x ys).mem_iff.mp hz
        rcases List.mem_cons.mp hz2 with hzx | hz3
        · rw [hzx]
          rcases strLe_total x.plugin y.plugin with h2 | h2
          · exact absurd h2 h
          · exact h2
        · exact hy z hz3

lemma pairwise_sortCommands (l : List CmdEntry) :
    List.Pairwise (fun a b => strLe a.plugin b.plugin = true) (sortCommands l) := by
  induction l with
  | nil => simp [sortCommands]
  | cons x xs ih => exact pairwise_orderedInsertCmd x (sortCommands xs) ih

lemma filter_orderedInsertCmd (x : CmdEntry) (l : List CmdEntry) (d : String) :
    (orderedInsertCmd x l).filter (fun e => e.plugin == d) =
      if x.plugin == d then x :: l.filter (fun e => e.plugin == d)
      else l.filter (fun e => e.plugin == d) := by
  induction l with
  | nil => simp [orderedInsertCmd, List.filter_cons]
  | cons y ys ih =>
      simp only [orderedInsertCmd]
      by_cases h : strLe x.plugin y.plugin = true
      · rw [if_pos h, List.filter_cons]
      · rw [if_neg h, List.filter_cons, ih, List.filter_cons]
        by_cases hx : (x.plugin == d) = true
        · have hy : ¬ (y.plugin == d) = true := by
            intro hyd
            apply h
            rw [beq_iff_eq.mp hx, beq_iff_eq.mp hyd] at *
            exact strLe_refl _
          simp [hx, hy]
        · simp [hx]

lemma filter_sortCommands (l : List CmdEntry) (d : String) :
    (sortCommands l).filter (fun e => e.plugin == d) =
      l.filter (fun e => e.plugin == d) := by
  induction l with
  | nil => rfl
  | cons x xs ih =>
      simp only [sortCommands]
      rw [filter_orderedInsertCmd, List.filter_cons, ih]

lemma allCommandsE_append (l1 l2 : List PluginInfo) (e : List CmdEntry)
    (h : allCommandsE (l1 ++ l2) = .ok e) :
    ∃ e1 e2, allCommandsE l1 = .ok e1 ∧ allCommandsE l2 = .ok e2 ∧
      e = e1 ++ e2 := by
  induction l1 generalizing e with
  | nil => exact ⟨[], e, rfl, h, rfl⟩
  | cons p rest ih =>
      cases hpm : p.metadata with
      | none => simp [List.cons_append, allCommandsE, hpm] at h
      | some m =>
          cases hrec : allCommandsE (rest ++ l2) with
          | error err => simp [List.cons_append, allCommandsE, hpm, hrec] at h
          | ok tail =>
              simp only [List.cons_append, allCommandsE, List.append_eq,
                hpm, hrec, Except.ok.injEq] at h
              obtain ⟨e1, e2, h1, h2, h3⟩ := ih tail hrec
              refine ⟨p.commands.map (entryOf (metaGet m "name" p.name)) ++ e1,
                e2, ?_, h2, ?_⟩
              · simp [allCommandsE, hpm, h1]
              · rw [← h, h3, List.append_assoc]

lemma allCommandsE_names (l : List PluginInfo) (e : List CmdEntry)
    (h : allCommandsE l = .ok e) :
    ∀ x ∈ e, ∃ q m', q ∈ l ∧ q.metadata = some m' ∧
      x.plugin = metaGet m' "name" q.name := by
  induction l generalizing e with
  | nil =>
      simp only [allCommandsE, Except.ok.injEq] at h
      subst h
      intro x hx
      simp at hx
  | cons p rest ih =>
      cases hpm : p.metadata with
      | none => simp [allCommandsE, hpm] at h
      | some m =>
          cases hrec : allCommandsE rest with
          | error err => simp [allCommandsE, hpm, hrec] at h
          | ok tail =>
              simp only [allCommandsE, hpm, hrec, Except.ok.injEq] at h
              subst h
              intro x hx
              rcases List.mem_append.mp hx with hx1 | hx2
              · rcases List.mem_map.mp hx1 with ⟨c, hc, rfl⟩
                exact ⟨p, m, List.mem_cons_self _ _, hpm, rfl⟩
              · obtain ⟨q, m', hq, hm', hxp⟩ := ih tail hrec x hx2
                exact ⟨q, m', List.mem_cons_of_mem p hq, hm', hxp⟩

lemma findByName_append (l1 l2 : List PluginInfo) (p : PluginInfo) (m : Metadata)
    (query : String)
    (hm : p.metadata = some m)
    (hq : (strIn query (metaGet m "name" "") || strIn query p.name) = true)
    (hpre : ∀ q ∈ l1, ∃ m', q.metadata = some m' ∧
        strIn query (metaGet m' "name" "") = false ∧
        strIn query q.name = false) :
    findByName (l1 ++ p :: l2) query = .ok (some p) := by
  induction l1 with
  | nil =>
      simp only [List.nil_append, findByName, hm]
      rw [if_pos hq]
  | cons q rest ih =>
      obtain ⟨m', hqm, h1, h2⟩ := hpre q (List.mem_cons_self _ _)
      simp only [List.cons_append, findByName, hqm]
      rw [if_neg (by simp [h1, h2])]
      exact ih (fun r hr => hpre r (List.mem_cons_of_mem q hr))

lemma get_append_len :
    ∀ (l1 : List PluginInfo) (p : PluginInfo) (l2 : List PluginInfo)
      (h : l1.length < (l1 ++ p :: l2).length),
      (l1 ++ p :: l2).get ⟨l1.length, h⟩ = p := by
  intro l1
  induction l1 with
  | nil => intro p l2 h; rfl
  | cons a rest ih =>
      intro p l2 h
      exact ih p l2 (by rw [List.length_append, List.length_cons]; omega)

lemma find_target_plugin_index (l1 l2 : List PluginInfo) (p : PluginInfo)
    (query : String)
    (hq : pyInt? query = some ((l1.length : Int) + 1)) :
    find_target_plugin (l1 ++ p :: l2) query = .ok (some p) := by
  simp only [find_target_plugin, hq]
  have hlen : ((l1 ++ p :: l2).length : Int) =
      (l1.length : Int) + (l2.length : Int) + 1 := by
    rw [List.length_append, List.length_cons]
    push_cast
    ring
  rw [dif_pos (by constructor <;> omega)]
  have h3 : ∀ (hh : (((l1.length : Int) + 1 - 1)).toNat < (l1 ++ p :: l2).length),
      (l1 ++ p :: l2).get ⟨(((l1.length : Int) + 1 - 1)).toNat, hh⟩ = p := by
    intro hh
    have e1 : (((l1.length : Int) + 1 - 1)).toNat = l1.length := by omega
    have e2 : (⟨(((l1.length : Int) + 1 - 1)).toNat, hh⟩ :
        Fin (l1 ++ p :: l2).length) = ⟨l1.length, by omega⟩ := Fin.ext e1
    rw [e2]
    exact get_append_len l1 p l2 _
  exact congrArg (fun z => Except.ok (some z)) (h3 _)

/-- A rendered listing line that starts a numbered plugin entry: exactly
the lines of `show_plugins_list` that begin with the newline the source
puts in front of `f"\n{i}. {plugin_name}"` (the header and the two
indented per-plugin lines begin with other characters). -/
def isNumberedLine (l : String) : Bool :=
  match l.data with
  | '\n' :: _ => true
  | _ => false

/-- The lines `ls` are numbered entry headers carrying consecutive indices
`i, i+1, ...` (each of the shape `"\n" ++ toString k ++ ". " ++ name`). -/
inductive NumberedFrom : Nat → List String → Prop where
  | nil (i : Nat) : NumberedFrom i []
  | cons (i : Nat) (nm : String) (rest : List String) :
      NumberedFrom (i + 1) rest →
      NumberedFrom i (("\n" ++ (toString i ++ (". " ++ nm))) :: rest)

lemma isNumberedLine_entry (t : String) : isNumberedLine ("\n" ++ t) = true := rfl

lemma isNumberedLine_desc (t : String) :
    isNumberedLine ("   📝 描述：" ++ t) = false := rfl

lemma isNumberedLine_count (t : String) :
    isNumberedLine ("   ⚙️  命令数量：" ++ t) = false := rfl

lemma listingLines_ok (plugins : List PluginInfo) :
    ∀ i : Nat, (∀ p ∈ plugins, p.metadata ≠ Option.none) →
      ∃ lines, listingLines i plugins = .ok lines ∧
        (lines.filter isNumberedLine).length = plugins.length ∧
        NumberedFrom i (lines.filter isNumberedLine) := by
  induction plugins with
  | nil =>
      intro i _
      exact ⟨[], rfl, rfl, NumberedFrom.nil i⟩
  | cons p rest ih =>
      intro i h
      cases hpm : p.metadata with
      | none => exact absurd hpm (h p (List.mem_cons_self _ _))
      | some m =>
          obtain ⟨tail, htail, hlen, hnum⟩ :=
            ih (i + 1) (fun q hq => h q (List.mem_cons_of_mem p hq))
          refine ⟨(("\n" ++ (toString i ++ (". " ++ metaGet m "name" p.name))) ::
              ("   📝 描述：" ++ metaGet m "desc" "无描述") ::
              (if p.commands.isEmpty then []
               else ["   ⚙️  命令数量：" ++ toString p.commands.length])) ++ tail,
            ?_, ?_, ?_⟩
          · simp only [listingLines, hpm, htail]
          · simp only [List.filter_append, List.filter_cons,
              isNumberedLine_entry, isNumberedLine_desc, List.length_append]
            have hfilt : List.filter isNumberedLine
                (if p.commands.isEmpty then []
                 else ["   ⚙️  命令数量：" ++ toString p.commands.length]) = [] := by
              by_cases hc : p.commands.isEmpty
              · simp [hc]
              · simp [hc, List.filter_cons, isNumberedLine_count]
            rw [hfilt]
            simp [hlen]
            omega
          · simp only [List.filter_append, List.filter_cons,
              isNumberedLine_entry, isNumberedLine_desc]
            have hfilt : List.filter isNumberedLine
                (if p.commands.isEmpty then []
                 else ["   ⚙️  命令数量：" ++ toString p.commands.length]) = [] := by
              by_cases hc : p.commands.isEmpty
              · simp [hc]
              · simp [hc, List.filter_cons, isNumberedLine_count]
            rw [hfilt]
            simpa using NumberedFrom.cons i (metaGet m "name" p.name) _ hnum

lemma load_plugins_info_length (root : List DirEntry) :
    (load_plugins_info root).length =
      (root.filter
        (fun e => e.isDir && !(e.dname == "astrbot_plugin_plugins_summary"))).length := by
  induction root with
  | nil => rfl
  | cons e rest ih =>
      simp only [load_plugins_info, List.filter_cons]
      cases hd : e.isDir <;>
        cases hn : e.dname == "astrbot_plugin_plugins_summary" <;>
          simp [hd, hn, ih]

/-- The decorator `@filter.command("search")` as parsed by `ast.parse`. -/
def searchDecorator : PyExpr :=
  .call (.attr (.name "filter") "command") [.const (.str "search")]

/-- Module with one decorated async `search` whose docstring uses the
English label `Usage:`. -/
def searchTreeEN : List PyStmt :=
  [.asyncFunctionDef "search" [searchDecorator]
    (some "Find items\nUsage: /search <term>") []]

/-- Module with one decorated async `search` whose docstring uses the
Chinese label `用法：`. -/
def searchTreeCN : List PyStmt :=
  [.asyncFunctionDef "search" [searchDecorator]
    (some "Find items\n用法：/search <term>") []]

/-- Module with one decorated async function whose decorator argument is
the integer literal `5`. -/
def intCommandTree : List PyStmt :=
  [.asyncFunctionDef "foo"
    [.call (.attr (.name "filter") "command") [.const (.int 5)]]
    Option.none []]

/-- C1: the claim says a plugin with missing/malformed metadata still
appears in the listing with defaults and the listing never raises.  The
code disagrees: `plugin_info["metadata"]` stays `None`, and
`plugin.get("metadata", {})` returns that stored `None` (the `{}` default
is dead), so `metadata.get("name", plugin["name"])` raises
`AttributeError` and the listing produces nothing.  This theorem
evaluates the scan and the listing at such a plugin. -/
theorem show_plugins_list_crash_on_missing_metadata :
    load_plugins_info [⟨"some_plugin", true, Option.none, []⟩] =
      [⟨"some_plugin", Option.none, []⟩] ∧
    show_plugins_list_text [⟨"some_plugin", Option.none, []⟩] =
      .error "AttributeError" :=
  ⟨rfl, rfl⟩

/-- C3: the claim says detail lookup with an out-of-range index or a
non-matching substring returns the not-found message and never raises,
regardless of the records.  The out-of-range index path indeed returns the
not-found message (second conjunct, even with absent metadata), but the
substring path raises `AttributeError` as soon as it inspects a record
whose metadata is `None` (first conjunct). -/
theorem show_plugin_details_crash_on_missing_metadata :
    show_plugin_details_text [⟨"some_plugin", Option.none, []⟩] "nomatch" =
      .error "AttributeError" ∧
    show_plugin_details_text [⟨"some_plugin", Option.none, []⟩] "7" =
      .ok "未找到名称包含 \x277\x27 的插件" :=
  ⟨rfl, rfl⟩

/-- C2 counterexample: on the exact source of the claim (docstring lines
`Find items` and `Usage: /search <term>`) the extractor yields the record
with EMPTY usage, because the code's usage label is `用法：`, not
`Usage:`. -/
theorem parse_commands_usage_label_counterexample :
    parse_commands searchTreeEN =
      [{ name := .str "search", description := "Find items", usage := "" }] ∧
    ∀ r ∈ parse_commands searchTreeEN, ¬ r.usage = "Usage: /search <term>" := by
  refine ⟨rfl, ?_⟩
  intro r hr
  rw [show parse_commands searchTreeEN =
    [{ name := .str "search", description := "Find items", usage := "" }]
    from rfl] at hr
  rw [List.mem_singleton] at hr
  subst hr
  intro hc
  exact absurd hc (by decide)

/-- C2 amended: a decorated async `search` with docstring lines
`Find items` and `用法：/search <term>` yields the record with name
`search`, description `Find items`, usage `用法：/search <term>`; in
general, among the docstring's remaining lines the first whose stripped
form begins with the label `用法：` is taken (stripped) as the usage hint
and the search stops at the first match. -/
theorem parse_commands_search_usage_amended (tree : List PyStmt)
    (nm : String) (body : List PyStmt)
    (h : PyStmt.asyncFunctionDef nm [searchDecorator]
        (some "Find items\n用法：/search <term>") body ∈ walkStmts tree) :
    ({ name := .str "search", description := "Find items",
        usage := "用法：/search <term>" } : CommandInfo) ∈ parse_commands tree ∧
    ∀ (pre post : List String) (l : String),
      (∀ x ∈ pre, pyStartsWith (pyStrip x) "用法：" = false) →
      pyStartsWith (pyStrip l) "用法：" = true →
      findUsage (pre ++ l :: post) = pyStrip l := by
  constructor
  · exact (mem_parse_commands_iff tree _).mpr
      ⟨nm, [searchDecorator], some "Find items\n用法：/search <term>", body, h,
        List.Mem.head _⟩
  · intro pre post l h1 h2
    induction pre with
    | nil => simp [findUsage, h2]
    | cons x xs ih =>
        have hx := h1 x (List.mem_cons_self _ _)
        simp only [List.cons_append, findUsage]
        rw [if_neg (by simp [hx])]
        exact ih (fun y hy => h1 y (List.mem_cons_of_mem x hy))

/-- C2 witness: the amended theorem applied to the one-function module
`searchTreeCN` and to a concrete line list. -/
theorem parse_commands_search_usage_witness :
    ({ name := .str "search", description := "Find items",
        usage := "用法：/search <term>" } : CommandInfo) ∈ parse_commands searchTreeCN ∧
    findUsage ["Details here", "用法：/search <term>", "ignored"] =
      "用法：/search <term>" := by
  have h := parse_commands_search_usage_amended searchTreeCN "search" []
    (List.Mem.head _)
  refine ⟨h.1, ?_⟩
  have h2 := h.2 ["Details here"] ["ignored"] "用法：/search <term>"
    (by decide) (by decide)
  exact h2.trans rfl

/-- Two plugins whose display names overlap as substrings: `b` is a
substring of `ab`, so name lookup for `b` hits the first plugin. -/
def cxPlugins : List PluginInfo :=
  [⟨"plugin_one", some [("name", "ab")], []⟩,
   ⟨"plugin_two", some [("name", "b")], []⟩]

/-- C4 counterexample: lookup by index 2 returns the second plugin, but
lookup by that plugin's exact display name `b` returns the FIRST plugin,
because the name search is a substring search and `b` occurs in `ab`. -/
theorem detail_lookup_index_name_counterexample :
    find_target_plugin cxPlugins "2" =
      .ok (some ⟨"plugin_two", some [("name", "b")], []⟩) ∧
    find_target_plugin cxPlugins "b" =
      .ok (some ⟨"plugin_one", some [("name", "ab")], []⟩) ∧
    (⟨"plugin_one", some [("name", "ab")], []⟩ : PluginInfo) ≠
      ⟨"plugin_two", some [("name", "b")], []⟩ := by
  refine ⟨rfl, rfl, by decide⟩

/-- C4 amended: lookup by the 1-based index of a plugin agrees with lookup
by that plugin's exact display name, provided the display name does not
parse as an integer, every earlier plugin's metadata is present, and no
earlier plugin's display name or identifier contains the display name as
a substring. -/
theorem detail_lookup_index_name_amended (l1 l2 : List PluginInfo)
    (p : PluginInfo) (m : Metadata)
    (hm : p.metadata = some m)
    (hname : pyInt? (metaGet m "name" "") = Option.none)
    (hpre : ∀ q ∈ l1, ∃ m', q.metadata = some m' ∧
        strIn (metaGet m "name" "") (metaGet m' "name" "") = false ∧
        strIn (metaGet m "name" "") q.name = false) :
    (∀ query : String, pyInt? query = some ((l1.length : Int) + 1) →
        find_target_plugin (l1 ++ p :: l2) query = .ok (some p)) ∧
    find_target_plugin (l1 ++ p :: l2) (metaGet m "name" "") = .ok (some p) := by
  constructor
  · intro query hq
    exact find_target_plugin_index l1 l2 p query hq
  · simp only [find_target_plugin, hname]
    exact findByName_append l1 l2 p m _ hm (by simp [strIn_self]) hpre

/-- C4 witness: two plugins with disjoint display names; index 2 and the
exact display name `Beta` resolve to the same record. -/
theorem detail_lookup_index_name_witness :
    find_target_plugin
        [⟨"plugin_alpha", some [("name", "Alpha")], []⟩,
         ⟨"plugin_beta", some [("name", "Beta")], []⟩] "2" =
      .ok (some ⟨"plugin_beta", some [("name", "Beta")], []⟩) ∧
    find_target_plugin
        [⟨"plugin_alpha", some [("name", "Alpha")], []⟩,
         ⟨"plugin_beta", some [("name", "Beta")], []⟩] "Beta" =
      .ok (some ⟨"plugin_beta", some [("name", "Beta")], []⟩) := by
  have h := detail_lookup_index_name_amended
    [⟨"plugin_alpha", some [("name", "Alpha")], []⟩] []
    ⟨"plugin_beta", some [("name", "Beta")], []⟩ [("name", "Beta")] rfl rfl
    (by
      intro q hq
      rw [List.mem_singleton] at hq
      subst hq
      exact ⟨[("name", "Alpha")], rfl, rfl, rfl⟩)
  exact ⟨h.1 "2" rfl, h.2⟩

/-- C5 counterexample: the claim quantifies over every collection of
plugin records, but on a record whose metadata is `None` (and which has a
command that should be listed) the catalogue view raises `AttributeError`
instead of listing anything. -/
theorem show_all_commands_error_counterexample :
    allCommandsE [⟨"some_plugin", Option.none,
        [{ name := .str "cmd", description := "", usage := "" }]⟩] =
      .error "AttributeError" ∧
    show_all_commands_text [⟨"some_plugin", Option.none,
        [{ name := .str "cmd", description := "", usage := "" }]⟩] =
      .error "AttributeError" :=
  ⟨rfl, rfl⟩

/-- C5 amended: whenever the flattening of the plugin records succeeds
(i.e. every record's metadata mapping is present), the catalogue's sorted
entry list is a permutation of the flattened entries, is nondecreasing in
the owning plugin's display name, preserves for every display name the
original (stable) order of that name's entries, and for a plugin whose
display name is unique the entries filtered to that name are exactly that
plugin's commands in extraction order. -/
theorem show_all_commands_grouped_sorted (plugins : List PluginInfo)
    (entries : List CmdEntry) (h : allCommandsE plugins = .ok entries) :
    List.Perm (sortCommands entries) entries ∧
    List.Pairwise (fun a b => strLe a.plugin b.plugin = true)
      (sortCommands entries) ∧
    (∀ d, (sortCommands entries).filter (fun e => e.plugin == d) =
      entries.filter (fun e => e.plugin == d)) ∧
    (∀ l1 p l2 m, plugins = l1 ++ p :: l2 → p.metadata = some m →
      (∀ q ∈ l1 ++ l2, ∀ m', q.metadata = some m' →
        ¬ metaGet m' "name" q.name = metaGet m "name" p.name) →
      (sortCommands entries).filter
          (fun e => e.plugin == metaGet m "name" p.name) =
        p.commands.map (entryOf (metaGet m "name" p.name))) := by
  refine ⟨perm_sortCommands entries, pairwise_sortCommands entries,
    fun d => filter_sortCommands entries d, ?_⟩
  intro l1 p l2 m hsplit hm hothers
  subst hsplit
  obtain ⟨e1, e23, h1, h23, he⟩ := allCommandsE_append l1 (p :: l2) entries h
  cases hrec : allCommandsE l2 with
  | error err => simp [allCommandsE, hm, hrec] at h23
  | ok e2 =>
      simp only [allCommandsE, hm, hrec, Except.ok.injEq] at h23
      have he2 : entries = e1 ++
          (p.commands.map (entryOf (metaGet m "name" p.name)) ++ e2) := by
        rw [he, ← h23]
      rw [filter_sortCommands, he2, List.filter_append, List.filter_append]
      have hf1 : e1.filter
          (fun e => e.plugin == metaGet m "name" p.name) = [] := by
        rw [List.filter_eq_nil_iff]
        intro x hx
        obtain ⟨q, m', hq, hm', hxp⟩ := allCommandsE_names l1 e1 h1 x hx
        have hne := hothers q (List.mem_append.mpr (Or.inl hq)) m' hm'
        intro hc
        rw [beq_iff_eq] at hc
        rw [hxp] at hc
        exact hne hc
      have hf2 : e2.filter
          (fun e => e.plugin == metaGet m "name" p.name) = [] := by
        rw [List.filter_eq_nil_iff]
        intro x hx
        obtain ⟨q, m', hq, hm', hxp⟩ := allCommandsE_names l2 e2 hrec x hx
        have hne := hothers q (List.mem_append.mpr (Or.inr hq)) m' hm'
        intro hc
        rw [beq_iff_eq] at hc
        rw [hxp] at hc
        exact hne hc
      have hfmap : (p.commands.map (entryOf (metaGet m "name" p.name))).filter
          (fun e => e.plugin == metaGet m "name" p.name) =
          p.commands.map (entryOf (metaGet m "name" p.name)) := by
        rw [List.filter_eq_self]
        intro x hx
        rcases List.mem_map.mp hx with ⟨c, hc, rfl⟩
        simp [entryOf]
      rw [hf1, hfmap, hf2]
      simp

/-- C5 witness: two plugins with display names `Beta` then `Alpha`; the
sorted catalogue is nondecreasing by display name and the `Beta` group is
exactly the first plugin's commands. -/
theorem show_all_commands_grouped_sorted_witness :
    List.Pairwise (fun a b => strLe a.plugin b.plugin = true)
      (sortCommands
        [{ plugin := "Beta", command := .str "b1", description := "d1", usage := "" },
         { plugin := "Alpha", command := .str "a1", description := "", usage := "" }]) ∧
    (sortCommands
        [{ plugin := "Beta", command := .str "b1", description := "d1", usage := "" },
         { plugin := "Alpha", command := .str "a1", description := "", usage := "" }]).filter
        (fun e => e.plugin == "Beta") =
      [{ plugin := "Beta", command := .str "b1", description := "d1", usage := "" }] := by
  have h := show_all_commands_grouped_sorted
    [⟨"p_beta", some [("name", "Beta")],
        [{ name := .str "b1", description := "d1", usage := "" }]⟩,
     ⟨"p_alpha", some [("name", "Alpha")],
        [{ name := .str "a1", description := "", usage := "" }]⟩]
    [{ plugin := "Beta", command := .str "b1", description := "d1", usage := "" },
     { plugin := "Alpha", command := .str "a1", description := "", usage := "" }]
    rfl
  refine ⟨h.2.1, ?_⟩
  have h4 := h.2.2.2 []
    ⟨"p_beta", some [("name", "Beta")],
      [{ name := .str "b1", description := "d1", usage := "" }]⟩
    [⟨"p_alpha", some [("name", "Alpha")],
      [{ name := .str "a1", description := "", usage := "" }]⟩]
    [("name", "Beta")] rfl rfl
    (by
      intro q hq m' hm'
      simp only [List.nil_append, List.mem_singleton] at hq
      subst hq
      simp only [Option.some.injEq] at hm'
      subst hm'
      decide)
  exact h4

/-- C6 counterexample: a root with one plugin directory (no metadata
document) has N = 1, but the listing raises `AttributeError` instead of
reporting one numbered entry. -/
theorem plugins_list_count_counterexample :
    (([⟨"some_plugin", true, Option.none, []⟩] : List DirEntry).filter
      (fun e => e.isDir && !(e.dname == "astrbot_plugin_plugins_summary"))).length
      = 1 ∧
    listingLines 1 (load_plugins_info [⟨"some_plugin", true, Option.none, []⟩]) =
      .error "AttributeError" :=
  ⟨rfl, rfl⟩

/-- C6 amended: the scan keeps exactly the N plugin subdirectories other
than the plugin's own directory (non-directories skipped), and — provided
every scanned plugin's metadata mapping is present — the listing succeeds
and contains exactly N numbered entry lines, numbered consecutively from
1. -/
theorem plugins_list_count_amended (root : List DirEntry)
    (h : ∀ p ∈ load_plugins_info root, p.metadata ≠ Option.none) :
    (load_plugins_info root).length =
      (root.filter (fun e => e.isDir &&
        !(e.dname == "astrbot_plugin_plugins_summary"))).length ∧
    ∃ lines, listingLines 1 (load_plugins_info root) = .ok lines ∧
      (lines.filter isNumberedLine).length = (load_plugins_info root).length ∧
      NumberedFrom 1 (lines.filter isNumberedLine) :=
  ⟨load_plugins_info_length root, listingLines_ok (load_plugins_info root) 1 h⟩

/-- C6 witness: the amended theorem applied to a root with one plugin
directory (with metadata) and one skipped non-directory entry. -/
theorem plugins_list_count_witness :
    (load_plugins_info
        [⟨"alpha_plugin", true, some [("name", "Alpha")], []⟩,
         ⟨"notes.txt", false, Option.none, []⟩]).length =
      (([⟨"alpha_plugin", true, some [("name", "Alpha")], []⟩,
         ⟨"notes.txt", false, Option.none, []⟩] : List DirEntry).filter
        (fun e => e.isDir &&
          !(e.dname == "astrbot_plugin_plugins_summary"))).length ∧
    ∃ lines, listingLines 1 (load_plugins_info
        [⟨"alpha_plugin", true, some [("name", "Alpha")], []⟩,
         ⟨"notes.txt", false, Option.none, []⟩]) = .ok lines ∧
      (lines.filter isNumberedLine).length =
        (load_plugins_info
          [⟨"alpha_plugin", true, some [("name", "Alpha")], []⟩,
           ⟨"notes.txt", false, Option.none, []⟩]).length ∧
      NumberedFrom 1 (lines.filter isNumberedLine) :=
  plugins_list_count_amended
    [⟨"alpha_plugin", true, some [("name", "Alpha")], []⟩,
     ⟨"notes.txt", false, Option.none, []⟩]
    (by decide)

/-- C7 counterexample: a decorator whose argument is the integer literal
`5` carries no literal STRING name, yet the extractor emits a record (its
name is the integer constant `5`, which is not a string at all). -/
theorem command_name_nonstring_counterexample :
    parse_commands intCommandTree =
      [{ name := .int 5, description := "", usage := "" }] ∧
    ∀ s : String,
      ({ name := .int 5, description := "", usage := "" } : CommandInfo).name ≠
        PyConst.str s := by
  refine ⟨rfl, ?_⟩
  intro s h
  exact PyConst.noConfusion h

/-- C7 amended: every record the extractor emits has a TRUTHY name
constant (so a string name is never empty); decorators whose argument is
missing, non-constant, or a falsy constant yield no record — but a truthy
non-string constant (e.g. `5`) does yield a record with that constant as
its name. -/
theorem command_records_truthy_name (tree : List PyStmt) :
    ∀ r ∈ parse_commands tree, r.name.truthy = true := by
  intro r hr
  rcases (mem_parse_commands_iff tree r).mp hr with
    ⟨nm, decs, doc, body, hmem, hrd⟩
  exact mem_parseDecorators_truthy (doc.getD "") decs r hrd

/-- C7 witness: the invariant applied to the record extracted from
`searchTreeCN`. -/
theorem command_records_truthy_name_witness :
    ({ name := .str "search", description := "Find items",
        usage := "用法：/search <term>" } : CommandInfo).name.truthy = true :=
  command_records_truthy_name searchTreeCN _ (List.Mem.head _)

/-- C8 counterexample: the cleanup is attempted on every exit path, but
when `os.unlink` itself fails the exception is caught and logged and the
temporary file survives the handler's return — the claim as stated is
false for that path. -/
theorem temp_file_survives_failed_unlink :
    (deliver_and_cleanup true false true).tempFileRemains = true := rfl

/-- C8 amended: whenever the `os.unlink` call succeeds, the temporary
image file no longer exists once the handler returns, on every exit path
— in particular whether or not delivery raised. -/
theorem temp_file_cleanup_amended :
    ∀ (imgCreated deliveryFails : Bool),
      (deliver_and_cleanup imgCreated deliveryFails false).tempFileRemains =
        false := by
  decide

/-- C9: inside one async function, the decorator loop emits exactly one
record per decorator that matches the marker with a truthy constant name
(so a function with several matching decorators yields several records),
and every record of that function carries the description and usage
derived from the function's docstring. -/
theorem one_record_per_matching_decorator (doc : String) (ds : List PyExpr) :
    (parseDecorators doc ds).length =
      ds.countP (fun dec => isFilterCommand dec && (decoratorArgName dec).truthy) ∧
    ∀ r ∈ parseDecorators doc ds,
      r.description = (parseDocstring doc).1 ∧
      r.usage = (parseDocstring doc).2 :=
  parseDecorators_spec doc ds

/-- C9 witness: a function carrying two matching decorators yields two
records, both with the docstring's description and usage. -/
theorem one_record_per_matching_decorator_witness :
    (parseDecorators "Do it\n用法：/x"
      [.call (.attr (.name "filter") "command") [.const (.str "alpha")],
       .call (.attr (.name "filter") "command") [.const (.str "beta")]]).length
      = 2 ∧
    ∀ r ∈ parseDecorators "Do it\n用法：/x"
      [.call (.attr (.name "filter") "command") [.const (.str "alpha")],
       .call (.attr (.name "filter") "command") [.const (.str "beta")]],
      r.description = "Do it" ∧ r.usage = "用法：/x" := by
  have h := one_record_per_matching_decorator "Do it\n用法：/x"
    [.call (.attr (.name "filter") "command") [.const (.str "alpha")],
     .call (.attr (.name "filter") "command") [.const (.str "beta")]]
  constructor
  · exact h.1.trans rfl
  · intro r hr
    obtain ⟨hd, hu⟩ := h.2 r hr
    exact ⟨hd.trans rfl, hu.trans rfl⟩

/-- C10: (1) a decorator is recognised exactly when it is a call whose
function is the attribute `command` on the bare name `filter` — in
particular (2) a further-qualified form such as `api.filter.command(...)`
is never recognised; (3) the walk visits precisely the statements
occurring anywhere in the tree, at any nesting depth; (4) a record is
extracted precisely from the decorator lists of the visited ASYNC
function definitions (synchronous definitions contribute nothing). -/
theorem decorator_recognition_and_walk :
    (∀ e : PyExpr, isFilterCommand e = true ↔
      ∃ args, e = PyExpr.call (PyExpr.attr (PyExpr.name "filter") "command") args) ∧
    (∀ (v : PyExpr) (args : List PyExpr),
      isFilterCommand
        (PyExpr.call (PyExpr.attr (PyExpr.attr v "filter") "command") args) =
        false) ∧
    (∀ (tree : List PyStmt) (s : PyStmt), s ∈ walkStmts tree ↔ Occurs s tree) ∧
    (∀ (tree : List PyStmt) (r : CommandInfo),
      r ∈ parse_commands tree ↔
        ∃ nm decs doc body,
          PyStmt.asyncFunctionDef nm decs doc body ∈ walkStmts tree ∧
          r ∈ parseDecorators (doc.getD "") decs) := by
  refine ⟨?_, ?_, ?_, ?_⟩
  · intro e
    constructor
    · intro h
      cases e with
      | call f args =>
          cases f with
          | attr v attrName =>
              cases v with
              | name id =>
                  simp only [isFilterCommand, Bool.and_eq_true, beq_iff_eq] at h
                  rcases h with ⟨rfl, rfl⟩
                  exact ⟨args, rfl⟩
              | attr v2 a2 => simp [isFilterCommand] at h
              | const v2 => simp [isFilterCommand] at h
              | call f2 a2 => simp [isFilterCommand] at h
              | other => simp [isFilterCommand] at h
          | name id => simp [isFilterCommand] at h
          | const v => simp [isFilterCommand] at h
          | call f2 a2 => simp [isFilterCommand] at h
          | other => simp [isFilterCommand] at h
      | name id => simp [isFilterCommand] at h
      | attr v a => simp [isFilterCommand] at h
      | const v => simp [isFilterCommand] at h
      | other => simp [isFilterCommand] at h
    · rintro ⟨args, rfl⟩
      rfl
  · intro v args
    rfl
  · exact mem_walkStmts_iff
  · exact mem_parse_commands_iff

/-- C10 witness: the qualified decorator `api.filter.command("x")` is not
recognised, and the record of `searchTreeCN` is characterised through the
walk. -/
theorem decorator_recognition_and_walk_witness :
    isFilterCommand
      (PyExpr.call (PyExpr.attr (PyExpr.attr (PyExpr.name "api") "filter")
        "command") [PyExpr.const (.str "x")]) = false ∧
    ({ name := .str "search", description := "Find items",
        usage := "用法：/search <term>" } : CommandInfo) ∈
      parse_commands searchTreeCN := by
  have h := decorator_recognition_and_walk
  exact ⟨h.2.1 (PyExpr.name "api") [PyExpr.const (.str "x")],
    (h.2.2.2 searchTreeCN _).mpr
      ⟨"search", [searchDecorator], some "Find items\n用法：/search <term>", [],
        List.Mem.head _, List.Mem.head _⟩⟩
